import Mathlib

/-!
Verification development for the FDA Adverse Event Intelligence dashboard
(`madison_app.py`).  The file shallowly embeds the app's trigger / normalize /
validate / render pipeline:

* `JVal` models decoded JSON values (Python objects produced by `json.loads`).
* `loads` / `dumps` model `json.loads` and the `records`-oriented JSON export
  (`df.to_json(orient='records')`, modulo insignificant whitespace); the
  round-trip `loads_dumps` is proved.
* `trigger_workflow`, `parse_response`, the validation/storage step, the
  session-state script run and the renderer's aggregations are translated
  from the source, keeping the source's names.
-/

/-- Decoded JSON value: the shape of `json.loads` output / `response.json()`.
Numbers are modelled as integers (the payload's numeric fields - severity
scores, counts - are integral). -/
inductive JVal where
  | null : JVal
  | bool : Bool → JVal
  | int : Int → JVal
  | str : String → JVal
  | arr : List JVal → JVal
  | obj : List (String × JVal) → JVal

/-! ### JSON text codec (model of `json.loads` / `DataFrame.to_json(orient='records')`) -/

/-- Decimal digit to character. -/
def digitChar : Nat → Char
  | 0 => '0' | 1 => '1' | 2 => '2' | 3 => '3' | 4 => '4'
  | 5 => '5' | 6 => '6' | 7 => '7' | 8 => '8' | _ => '9'

/-- Character to decimal digit value (0 for non-digits). -/
def toDigitVal : Char → Nat
  | '0' => 0 | '1' => 1 | '2' => 2 | '3' => 3 | '4' => 4
  | '5' => 5 | '6' => 6 | '7' => 7 | '8' => 8 | '9' => 9
  | _ => 0

/-- Decimal digit string of a natural number, most significant digit first. -/
def natDigits (n : Nat) : List Char :=
  if _h : n < 10 then [digitChar n]
  else natDigits (n / 10) ++ [digitChar (n % 10)]
decreasing_by exact Nat.div_lt_self (by omega) (by omega)

/-- Numeric value of a digit string. -/
def natFromDigits (ds : List Char) : Nat :=
  ds.foldl (fun a c => 10 * a + toDigitVal c) 0

/-- Longest digit prefix of a character list, with the remainder. -/
def spanDigits : List Char → List Char × List Char
  | [] => ([], [])
  | c :: cs =>
    if c.isDigit then
      let p := spanDigits cs
      (c :: p.1, p.2)
    else ([], c :: cs)

/-- JSON string escaping of one character (quote and backslash). -/
def escChar (c : Char) : List Char :=
  if c = '"' ∨ c = '\\' then ['\\', c] else [c]

/-- JSON string escaping. -/
def escape : List Char → List Char
  | [] => []
  | c :: cs => escChar c ++ escape cs

/-- Serialised form of an integer. -/
def dumpInt (n : Int) : List Char :=
  if n < 0 then '-' :: natDigits n.natAbs else natDigits n.toNat

mutual

/-- Serialised (compact) JSON text of a value. -/
def dumpVal : JVal → List Char
  | .int n => dumpInt n
  | .bool false => ['f', 'a', 'l', 's', 'e']
  | .null => ['n', 'u', 'l', 'l']
  | .bool true => ['t', 'r', 'u', 'e']
  | .str s => '"' :: (escape s.data ++ ['"'])
  | .arr [] => ['[', ']']
  | .arr (x :: xs) => '[' :: (dumpItems x xs ++ [']'])
  | .obj [] => ['{', '}']
  | .obj (f :: fs) => '{' :: (dumpFields f fs ++ ['}'])
termination_by v => sizeOf v
decreasing_by all_goals (simp_wf; try omega)

/-- Comma-separated serialisation of a nonempty array body. -/
def dumpItems : JVal → List JVal → List Char
  | x, [] => dumpVal x
  | x, y :: ys => dumpVal x ++ ',' :: dumpItems y ys
termination_by x xs => sizeOf x + sizeOf xs
decreasing_by all_goals (simp_wf; try omega)

/-- Comma-separated serialisation of a nonempty object body. -/
def dumpFields : String × JVal → List (String × JVal) → List Char
  | (k, v), [] => '"' :: (escape k.data ++ '"' :: ':' :: dumpVal v)
  | (k, v), f :: fs =>
    ('"' :: (escape k.data ++ '"' :: ':' :: dumpVal v)) ++ ',' :: dumpFields f fs
termination_by f fs => sizeOf f + sizeOf fs
decreasing_by all_goals (simp_wf; try omega)

end

/-- Parse a JSON string body after the opening quote, returning the decoded
characters and the remainder after the closing quote. -/
def parseStr : List Char → Option (List Char × List Char)
  | [] => none
  | c :: cs =>
    if c = '\\' then
      match cs with
      | [] => none
      | d :: cs2 => (parseStr cs2).map (fun p => (d :: p.1, p.2))
    else if c = '"' then some ([], cs)
    else (parseStr cs).map (fun p => (c :: p.1, p.2))

/-- Consume the expected characters from the front of the input. -/
def expectChars : List Char → List Char → Option (List Char)
  | [], cs => some cs
  | e :: es, c :: cs => if c = e then expectChars es cs else none
  | _ :: _, [] => none

mutual

/-- Fuel-indexed JSON value parser. -/
def parseVal : Nat → List Char → Option (JVal × List Char)
  | 0, _ => none
  | _ + 1, [] => none
  | fuel + 1, c :: cs =>
    if c = '"' then (parseStr cs).map (fun p => (JVal.str (String.mk p.1), p.2))
    else if c = '[' then
      match cs with
      | [] => none
      | d :: cs2 =>
        if d = ']' then some (.arr [], cs2)
        else (parseItems fuel (d :: cs2)).map (fun p => (JVal.arr p.1, p.2))
    else if c = '{' then
      match cs with
      | [] => none
      | d :: cs2 =>
        if d = '}' then some (.obj [], cs2)
        else (parseFields fuel (d :: cs2)).map (fun p => (JVal.obj p.1, p.2))
    else if c = '-' then
      match spanDigits cs with
      | ([], _) => none
      | (d :: ds, rest) => some (.int (-(natFromDigits (d :: ds) : Int)), rest)
    else if c.isDigit then
      match spanDigits (c :: cs) with
      | ([], _) => none
      | (d :: ds, rest) => some (.int (natFromDigits (d :: ds) : Int), rest)
    else if c = 'n' then (expectChars ['u', 'l', 'l'] cs).map (fun r => (JVal.null, r))
    else if c = 't' then (expectChars ['r', 'u', 'e'] cs).map (fun r => (JVal.bool true, r))
    else if c = 'f' then (expectChars ['a', 'l', 's', 'e'] cs).map (fun r => (JVal.bool false, r))
    else none

/-- Parse the body of a nonempty array, consuming the closing bracket. -/
def parseItems : Nat → List Char → Option (List JVal × List Char)
  | 0, _ => none
  | fuel + 1, cs =>
    (parseVal fuel cs).bind fun vr =>
      match vr.2 with
      | ',' :: r2 => (parseItems fuel r2).map fun p => (vr.1 :: p.1, p.2)
      | ']' :: r2 => some ([vr.1], r2)
      | _ => none

/-- Parse the body of a nonempty object, consuming the closing brace. -/
def parseFields : Nat → List Char → Option (List (String × JVal) × List Char)
  | 0, _ => none
  | fuel + 1, cs =>
    match cs with
    | '"' :: cs1 =>
      (parseStr cs1).bind fun kr =>
        match kr.2 with
        | ':' :: r2 =>
          (parseVal fuel r2).bind fun vr =>
            match vr.2 with
            | ',' :: r4 =>
              (parseFields fuel r4).map fun p => ((String.mk kr.1, vr.1) :: p.1, p.2)
            | '}' :: r4 => some ([(String.mk kr.1, vr.1)], r4)
            | _ => none
        | _ => none
    | _ => none

end

/-- Model of `json.loads`: parse the whole string as one JSON value (trailing
data is an error, as in Python). -/
def loads (s : String) : Option JVal :=
  match parseVal (s.data.length + 1) s.data with
  | some (v, []) => some v
  | _ => none

/-- Serialised JSON text of a value, as a string. -/
def dumps (v : JVal) : String := String.mk (dumpVal v)

/-! ### Application model (`madison_app.py`) -/

/-- Python-dict lookup in a decoded JSON object (last binding wins, as for
duplicate keys in `json.loads`). -/
def lookupField (fs : List (String × JVal)) (k : String) : Option JVal :=
  fs.foldl (fun acc p => if p.1 = k then some p.2 else acc) none

/-- Python `str.strip()`: drop leading and trailing whitespace. -/
def pyStrip (s : String) : String :=
  String.mk (((s.data.dropWhile Char.isWhitespace).reverse.dropWhile Char.isWhitespace).reverse)

/-- Python `s[:n]`: the first `n` characters. -/
def pyTake (s : String) (n : Nat) : String := String.mk (s.data.take n)

/-- Python `str.lower()` (ASCII case folding). -/
def pyLower (s : String) : String := String.mk (s.data.map Char.toLower)

/-- Configured base address (`DEFAULT_N8N_URL`). -/
def DEFAULT_N8N_URL : String := "https://fda-adverse-event-intelligence.onrender.com"

/-- Fixed webhook path segment (`WEBHOOK_PATH`). -/
def WEBHOOK_PATH : String := "webhook/c4e3e139-affc-40e5-a550-11c1b30540fe"

/-- Python `str.rstrip('/')`. -/
def rstripSlash (s : String) : String :=
  String.mk ((s.data.reverse.dropWhile (fun c => c = '/')).reverse)

/-- `get_n8n_url`: strip trailing slashes from the base URL and append the
webhook path (the base URL is passed explicitly; the source reads it from
session state with `DEFAULT_N8N_URL` as default). -/
def get_n8n_url (base_url : String) : String :=
  rstripSlash base_url ++ "/" ++ WEBHOOK_PATH

/-- `timeout_seconds = max(300, count * 3)` from `trigger_workflow`. -/
def timeout_seconds (count : Nat) : Nat := max 300 (count * 3)

/-- The possible results of the one `requests.post` call, as seen by
`trigger_workflow`'s `try` block: an HTTP response (status code and body),
a timeout, a connection error, or any other exception (caught by the final
catch-all with its message). -/
inductive RequestResult where
  | response : Nat → String → RequestResult
  | timedOut : RequestResult
  | connError : RequestResult
  | otherExc : String → RequestResult

/-- Model of `str(json.JSONDecodeError)` for a non-JSON body.  The app only
truncates and displays this text; its exact content is CPython's. -/
def decodeErrMsg (_body : String) : String := "Expecting value: line 1 column 1 (char 0)"

/-- The `{"ok": False, "error": msg}` dictionary. -/
def errDict (msg : String) : List (String × JVal) :=
  [("ok", JVal.bool false), ("error", JVal.str msg)]

/-- The `{"ok": True, "data": v}` dictionary. -/
def okDict (v : JVal) : List (String × JVal) :=
  [("ok", JVal.bool true), ("data", v)]

/-- `trigger_workflow(count)`: classify the outcome of the single webhook call
and return the `{"ok": ..., ...}` dictionary the source builds in each branch.
The network effect itself is abstracted as the `RequestResult` argument. -/
def trigger_workflow (base_url : String) (count : Nat) (req : RequestResult) :
    List (String × JVal) :=
  match req with
  | .response status text =>
    if status = 200 then
      if pyStrip text = "" then errDict "n8n returned empty response"
      else
        match loads text with
        | some v => okDict v
        | none => errDict ("Invalid JSON: " ++ pyTake (decodeErrMsg text) 100)
    else errDict ("HTTP " ++ toString status ++ ": " ++ pyTake text 200)
  | .timedOut => errDict ("Timeout after " ++ toString (timeout_seconds count) ++ "s")
  | .connError => errDict ("Cannot connect to n8n at " ++ get_n8n_url base_url)
  | .otherExc msg => errDict msg

/-- Model of `pd.DataFrame(records)` for the sequence-shaped payloads the
webhook contract produces: the rows are the sequence's elements, in order.
A non-sequence argument is modelled as a construction failure (caught by
`parse_response`'s `except` clause). -/
def pdDataFrame : JVal → Option (List JVal)
  | .arr xs => some xs
  | _ => none

/-- The dispatch of `parse_response` after any string payload has been decoded:
mapping with a `"records"` key, bare sequence, or one-row wrap of the whole
value.  Mirrors lines 101-105 of the source, which fall through without
re-parsing. -/
def parse_decoded : JVal → Option (List JVal × JVal)
  | .obj fs =>
    if (lookupField fs "records").isSome then
      (pdDataFrame ((lookupField fs "records").getD JVal.null)).map
        (fun rows => (rows, (lookupField fs "outputs").getD (JVal.obj [])))
    else some ([JVal.obj fs], JVal.obj [])
  | .arr xs => some (xs, JVal.obj [])
  | v => some ([v], JVal.obj [])

/-- `parse_response(data)`: a string payload is decoded with `json.loads`
(once), then the decoded value is dispatched on its shape; any exception
yields `(None, {})`, modelled as `none`. -/
def parse_response (data : JVal) : Option (List JVal × JVal) :=
  match data with
  | .str s =>
    match loads s with
    | some v => parse_decoded v
    | none => none
  | v => parse_decoded v

/-- Modelled from the spec: the Response Normalizer "If value is a string:
first parse it as JSON (fails with ParseError on invalid JSON), recurse."
The recursion the spec prescribes is not structurally bounded (parsing can
yield another string), so a fuel argument bounds its depth; on any input the
spec's normalizer either settles within some finite fuel or parse-errors. -/
def normalize_spec : Nat → JVal → Option (List JVal × JVal)
  | 0, _ => none
  | fuel + 1, .str s =>
    match loads s with
    | some v => normalize_spec fuel v
    | none => none
  | _ + 1, .obj fs =>
    if (lookupField fs "records").isSome then
      (pdDataFrame ((lookupField fs "records").getD JVal.null)).map
        (fun rows => (rows, (lookupField fs "outputs").getD (JVal.obj [])))
    else some ([JVal.obj fs], JVal.obj [])
  | _ + 1, .arr xs => some (xs, JVal.obj [])
  | _ + 1, v => some ([v], JVal.obj [])

/-- Keys of one row (a row that is not a mapping contributes no keys; the
payload contract's rows are mappings). -/
def rowKeys : JVal → List String
  | .obj fs => fs.map (fun p => p.1)
  | _ => []

/-- `df.columns` of a DataFrame built from a list of row mappings: the union
of the rows' keys, in order of first appearance. -/
def columnsOf (rows : List JVal) : List String :=
  rows.foldl (fun acc r => acc ++ (rowKeys r).filter (fun k => !(acc.contains k))) []

/-- The validation-and-storage step of the processing branch (lines 224-239):
the parsed table is stored exactly when parsing succeeded, the table is
non-empty, and `ai_severity_score` is among its columns; otherwise an error
is shown (or `st.stop()` runs) and nothing is stored. -/
def store_result (data : JVal) : Option (List JVal × JVal) :=
  match parse_response data with
  | none => none
  | some (df, outputs) =>
    if 0 < df.length then
      if (columnsOf df).contains "ai_severity_score" then some (df, outputs)
      else none
    else none

/-- Session state relevant to the processing lifecycle: the `analyzing` flag,
the stored results table, its `outputs` metadata and `proc_time`. -/
structure SessionState where
  analyzing : Bool
  results : Option (List JVal)
  outputs : JVal
  proc_time : ℚ

/-- Fresh session: no `analyzing` key (modelled as `false`), no results. -/
def init_session : SessionState :=
  { analyzing := false, results := none, outputs := JVal.obj [], proc_time := 0 }

/-- The Start Analysis button handler (lines 189-192): set `analyzing`,
clear `results`. -/
def start_clicked (s : SessionState) : SessionState :=
  { s with analyzing := true, results := none }

/-- The New Analysis button handler (lines 195-197): clear `results`. -/
def new_analysis_clicked (s : SessionState) : SessionState :=
  { s with results := none }

/-- One execution of the main-content processing branch (lines 200-253),
given the dictionary returned by `trigger_workflow` and the elapsed time:
when the branch guard (`analyzing` set and no results) holds and the trigger
succeeded, parse, validate and store; in every error branch the state is
left unchanged (errors are only displayed). -/
def script_run (s : SessionState) (res : List (String × JVal)) (elapsed : ℚ) :
    SessionState :=
  if s.analyzing && s.results.isNone then
    match lookupField res "ok", lookupField res "data" with
    | some (JVal.bool true), some v =>
      match store_result v with
      | some (df, out) =>
        { s with proc_time := elapsed, results := some df, outputs := out }
      | none => s
    | _, _ => s
  else s

/-- The three rendering phases of the main content area (line 200 / line 255 /
final `else`). -/
inductive Phase where
  | processing : Phase
  | done : Phase
  | idle : Phase
deriving DecidableEq

/-- Which branch of the main content area a script run renders. -/
def phase (s : SessionState) : Phase :=
  if s.analyzing && s.results.isNone then Phase.processing
  else if s.results.isSome then Phase.done
  else Phase.idle

/-- `per_rec` (line 258): elapsed time per record, `0` when the table is
empty. -/
def per_rec (proc_time : ℚ) (n : Nat) : ℚ :=
  if 0 < n then proc_time / (n : ℚ) else 0

/-- Python `str()` of a cell value, as used in `str(s).lower()` (line 265-266).
String cells render as themselves; the source-mix cells are strings. -/
def pyStr : JVal → String
  | .str s => s
  | .int n => toString n
  | .bool b => if b then "True" else "False"
  | .null => "None"
  | v => dumps v

/-- Substring test on character lists. -/
def containsSub (sub : List Char) : List Char → Bool
  | [] => sub.isEmpty
  | c :: cs => sub.isPrefixOf (c :: cs) || containsSub sub cs

/-- Python `sub in s` on strings. -/
def strContainsSub (s sub : String) : Bool := containsSub sub.data s.data

/-- `'cadec' in str(s).lower()` (line 265). -/
def cadec_match (v : JVal) : Bool := strContainsSub (pyLower (pyStr v)) "cadec"

/-- `'fda' in str(s).lower() or 'medwatch' in str(s).lower()` (line 266). -/
def fda_match (v : JVal) : Bool :=
  strContainsSub (pyLower (pyStr v)) "fda" || strContainsSub (pyLower (pyStr v)) "medwatch"

/-- `s == 'pubmed'` (line 267): exact equality, no lowering. -/
def pubmed_match : JVal → Bool
  | .str s => s == "pubmed"
  | _ => false

/-- `cadec_count` (line 265), over the `source` column values. -/
def cadec_count (sources : List JVal) : Nat := sources.countP cadec_match

/-- `fda_count` (line 266). -/
def fda_count (sources : List JVal) : Nat := sources.countP fda_match

/-- `pubmed_count` (line 267). -/
def pubmed_count (sources : List JVal) : Nat := sources.countP pubmed_match

/-- The `source` column of the stored table: one value per row (`NaN`,
modelled as `null`, for rows without the key). -/
def sourceColumn (df : List JVal) : List JVal :=
  df.map (fun r =>
    match r with
    | .obj fs => (lookupField fs "source").getD JVal.null
    | _ => JVal.null)

/-- `df['ai_severity_score'].value_counts().sort_index()` (line 510) over the
severity column: occurrence counts per distinct value, index sorted
ascending. -/
def value_counts_sorted (scores : List Int) : List (Int × Nat) :=
  ((scores.dedup).insertionSort (fun a b => a ≤ b)).map (fun v => (v, scores.count v))

/-- First entry with the maximal count (pandas `Series.idxmax` keeps the
first index on ties). -/
def idxmaxAux : List (Int × Nat) → Option (Int × Nat)
  | [] => none
  | p :: tl =>
    match idxmaxAux tl with
    | none => some p
    | some q => some (if q.2 > p.2 then q else p)

/-- `s.idxmax()` (line 515): the index of the maximal count. -/
def series_idxmax (l : List (Int × Nat)) : Option Int := (idxmaxAux l).map (fun p => p.1)

/-- One exported row under pandas' column alignment: `to_json` serialises
every record with the DataFrame's full column set, in column order, and a
key the row lacks (stored as `NaN`) is emitted as JSON `null`.  (The
accompanying dtype change - an int column containing `NaN` is upcast to
float - is a further divergence of the program on the same inputs and is not
modelled; it only widens the round-trip failure exhibited below.) -/
def alignRow (cols : List String) (r : JVal) : JVal :=
  JVal.obj (cols.map (fun k =>
    (k, (match r with
         | JVal.obj fs => (lookupField fs k).getD JVal.null
         | _ => JVal.null))))

/-- `df.to_json(orient='records')` (line 541): the table as a JSON array of
row objects, each row aligned to the DataFrame's columns (compact form; the
source's `indent=2` only adds insignificant whitespace). -/
def to_json_records (rows : List JVal) : String :=
  dumps (JVal.arr (rows.map (alignRow (columnsOf rows))))

/-! ### Helper lemmas -/

theorem lookupField_errDict_ok (msg : String) :
    lookupField (errDict msg) "ok" = some (JVal.bool false) := rfl

theorem lookupField_errDict_data (msg : String) :
    lookupField (errDict msg) "data" = none := rfl

theorem lookupField_errDict_error (msg : String) :
    lookupField (errDict msg) "error" = some (JVal.str msg) := rfl

theorem lookupField_okDict_ok (v : JVal) :
    lookupField (okDict v) "ok" = some (JVal.bool true) := rfl

theorem lookupField_okDict_data (v : JVal) :
    lookupField (okDict v) "data" = some v := rfl

theorem lookupField_okDict_error (v : JVal) :
    lookupField (okDict v) "error" = none := rfl

/-- Whether an optional cell holds a string. -/
def isStrVal : Option JVal → Bool
  | some (.str _) => true
  | _ => false

/-! ### Claim theorems -/

/-- C6: for every record_count `n` in `[1,100]`, the request timeout computed
by `trigger_workflow` equals `max(300, 3n)` seconds, and for `n ≤ 100` this
value is `≥ 300`. -/
theorem c6_timeout_formula (n : Nat) (_h1 : 1 ≤ n) (_h2 : n ≤ 100) :
    timeout_seconds n = max 300 (3 * n) ∧ 300 ≤ timeout_seconds n := by
  unfold timeout_seconds
  exact ⟨by rw [Nat.mul_comm], Nat.le_max_left _ _⟩

/-- Witness for C6 at `n = 10`. -/
theorem c6_timeout_formula_witness :
    1 ≤ 10 ∧ 10 ≤ 100 ∧
      (timeout_seconds 10 = max 300 (3 * 10) ∧ 300 ≤ timeout_seconds 10) :=
  ⟨by decide, by decide, c6_timeout_formula 10 (by decide) (by decide)⟩

/-- C2: the outcome classification of an HTTP response in `trigger_workflow`
is first-match-wins: non-200 status gives the HTTP error with the body
truncated to 200 characters; empty/whitespace 200-body gives the
empty-response error; a non-JSON 200-body gives the invalid-JSON error with
a truncated parse message; otherwise the parsed value is returned as
success. -/
theorem c2_outcome_classification (base_url : String) (count status : Nat) (text : String) :
    (status ≠ 200 →
      trigger_workflow base_url count (.response status text) =
        errDict ("HTTP " ++ toString status ++ ": " ++ pyTake text 200)) ∧
    (status = 200 → pyStrip text = "" →
      trigger_workflow base_url count (.response status text) =
        errDict "n8n returned empty response") ∧
    (status = 200 → pyStrip text ≠ "" → loads text = none →
      trigger_workflow base_url count (.response status text) =
        errDict ("Invalid JSON: " ++ pyTake (decodeErrMsg text) 100)) ∧
    (∀ v, status = 200 → pyStrip text ≠ "" → loads text = some v →
      trigger_workflow base_url count (.response status text) = okDict v) := by
  refine ⟨fun h => ?_, fun h ht => ?_, fun h ht hl => ?_, fun v h ht hl => ?_⟩
  · simp [trigger_workflow, h]
  · simp [trigger_workflow, h, ht]
  · simp [trigger_workflow, h, ht, hl]
  · simp [trigger_workflow, h, ht, hl]

/-- Witness for C2: the two concrete scenarios of the claim's sources. -/
theorem c2_outcome_classification_witness :
    trigger_workflow DEFAULT_N8N_URL 5 (.response 500 "server error") =
      errDict ("HTTP " ++ toString 500 ++ ": " ++ pyTake "server error" 200) ∧
    trigger_workflow DEFAULT_N8N_URL 10 (.response 200 "") =
      errDict "n8n returned empty response" :=
  ⟨(c2_outcome_classification DEFAULT_N8N_URL 5 500 "server error").1 (by omega),
   (c2_outcome_classification DEFAULT_N8N_URL 10 200 "").2.1 rfl (by decide)⟩

/-- C9: `trigger_workflow` is total over every request result, exceptions
included, and always returns a dictionary with an `"ok"` boolean, `"data"`
present exactly when ok is true, and a string `"error"` present exactly when
ok is false. -/
theorem c9_trigger_total_shape (base_url : String) (count : Nat) (req : RequestResult) :
    ∃ b : Bool,
      lookupField (trigger_workflow base_url count req) "ok" = some (JVal.bool b) ∧
      (lookupField (trigger_workflow base_url count req) "data").isSome = b ∧
      isStrVal (lookupField (trigger_workflow base_url count req) "error") = !b := by
  have herr : ∀ msg : String,
      lookupField (errDict msg) "ok" = some (JVal.bool false) ∧
      (lookupField (errDict msg) "data").isSome = false ∧
      isStrVal (lookupField (errDict msg) "error") = !false :=
    fun msg => ⟨rfl, rfl, rfl⟩
  have hok : ∀ v : JVal,
      lookupField (okDict v) "ok" = some (JVal.bool true) ∧
      (lookupField (okDict v) "data").isSome = true ∧
      isStrVal (lookupField (okDict v) "error") = !true :=
    fun v => ⟨rfl, rfl, rfl⟩
  cases req with
  | response status text =>
    by_cases h : status = 200
    · by_cases ht : pyStrip text = ""
      · exact ⟨false, by simp only [trigger_workflow, h, ht, if_pos, if_true]; simpa using herr _⟩
      · cases hl : loads text with
        | some v =>
          exact ⟨true, by simp only [trigger_workflow, if_pos h, if_neg ht, hl]; simpa using hok v⟩
        | none =>
          exact ⟨false, by simp only [trigger_workflow, if_pos h, if_neg ht, hl]; simpa using herr _⟩
    · exact ⟨false, by simp only [trigger_workflow, if_neg h]; simpa using herr _⟩
  | timedOut => exact ⟨false, herr _⟩
  | connError => exact ⟨false, herr _⟩
  | otherExc msg => exact ⟨false, herr _⟩

/-- C4 (code evidence): after Start Analysis sets the `analyzing` flag, a
trigger outcome of HTTP 200 with empty body (EmptyResponse) stores no table,
but the flag is never cleared anywhere in the source, so the session renders
the processing branch again instead of returning to the idle phase. -/
theorem c4_error_leaves_processing_phase :
    (script_run (start_clicked init_session)
        (trigger_workflow DEFAULT_N8N_URL 10 (.response 200 "")) 7).results = none ∧
    (script_run (start_clicked init_session)
        (trigger_workflow DEFAULT_N8N_URL 10 (.response 200 "")) 7).analyzing = true ∧
    phase (script_run (start_clicked init_session)
        (trigger_workflow DEFAULT_N8N_URL 10 (.response 200 "")) 7) = Phase.processing ∧
    phase (script_run (start_clicked init_session)
        (trigger_workflow DEFAULT_N8N_URL 10 (.response 200 "")) 7) ≠ Phase.idle :=
  ⟨rfl, rfl, rfl, by decide⟩

/-- C5 counterexample: a row whose source contains both a `cadec` and an
`fda` substring is counted in two of the three buckets, so a row does not
match at most one bucket. -/
theorem c5_counterexample :
    cadec_match (JVal.str "cadec fda") = true ∧
    fda_match (JVal.str "cadec fda") = true ∧
    cadec_count [JVal.str "cadec fda"] = 1 ∧
    fda_count [JVal.str "cadec fda"] = 1 :=
  ⟨rfl, rfl, rfl, rfl⟩

/-- C5 (amended): the pubmed bucket (exact equality) is disjoint from the
cadec and fda buckets; a row matching none of the three checks contributes
to none of the published counts; and the sources
`["CADEC","fda_alert","pubmed","unknown"]` yield counts `{cadec:1, fda:1,
pubmed:1}`.  (The cadec and fda buckets themselves can overlap, as the
counterexample shows.) -/
theorem c5_source_mix_amended (v : JVal) (rest : List JVal) :
    (pubmed_match v = true → cadec_match v = false ∧ fda_match v = false) ∧
    (cadec_match v = false → cadec_count (v :: rest) = cadec_count rest) ∧
    (fda_match v = false → fda_count (v :: rest) = fda_count rest) ∧
    (pubmed_match v = false → pubmed_count (v :: rest) = pubmed_count rest) ∧
    (cadec_count [JVal.str "CADEC", JVal.str "fda_alert", JVal.str "pubmed",
        JVal.str "unknown"] = 1 ∧
      fda_count [JVal.str "CADEC", JVal.str "fda_alert", JVal.str "pubmed",
        JVal.str "unknown"] = 1 ∧
      pubmed_count [JVal.str "CADEC", JVal.str "fda_alert", JVal.str "pubmed",
        JVal.str "unknown"] = 1) := by
  refine ⟨?_, ?_, ?_, ?_, rfl, rfl, rfl⟩
  · intro h
    cases v with
    | null => simp [pubmed_match] at h
    | bool b => simp [pubmed_match] at h
    | int n => simp [pubmed_match] at h
    | arr xs => simp [pubmed_match] at h
    | obj fs => simp [pubmed_match] at h
    | str s =>
      have hs : s = "pubmed" := by simpa [pubmed_match] using h
      subst hs
      exact ⟨rfl, rfl⟩
  · intro h; simp [cadec_count, List.countP_cons, h]
  · intro h; simp [fda_count, List.countP_cons, h]
  · intro h; simp [pubmed_count, List.countP_cons, h]

/-- Witness for the amended C5: the pubmed-disjointness clause at the
concrete source `"pubmed"`. -/
theorem c5_source_mix_amended_witness :
    pubmed_match (JVal.str "pubmed") = true ∧
    (cadec_match (JVal.str "pubmed") = false ∧ fda_match (JVal.str "pubmed") = false) :=
  ⟨rfl, (c5_source_mix_amended (JVal.str "pubmed") []).1 rfl⟩

/-- C3 counterexample: a batch in which the second row lacks
`ai_severity_score` still passes the column-level check (the column exists in
the DataFrame because the first row has it) and is stored, so the
every-row requirement of the claim is not what the code enforces. -/
theorem c3_counterexample :
    store_result (JVal.obj [("records", JVal.arr
        [JVal.obj [("ai_severity_score", JVal.int 5)], JVal.obj [("x", JVal.int 1)]])]) =
      some ([JVal.obj [("ai_severity_score", JVal.int 5)], JVal.obj [("x", JVal.int 1)]],
        JVal.obj []) ∧
    (rowKeys (JVal.obj [("x", JVal.int 1)])).contains "ai_severity_score" = false :=
  ⟨rfl, rfl⟩

/-- C3 (amended): before rendering, the parsed table must be non-empty and
`ai_severity_score` must be among its columns (the union of the rows' keys);
any violation, or a parse failure, halts rendering with nothing stored, and
the result is stored exactly when the checks pass. -/
theorem c3_validation_amended (data : JVal) :
    (parse_response data = none → store_result data = none) ∧
    (∀ df outputs, parse_response data = some (df, outputs) →
      (store_result data = some (df, outputs) ↔
        df ≠ [] ∧ (columnsOf df).contains "ai_severity_score" = true)) := by
  constructor
  · intro h; simp [store_result, h]
  · intro df outputs h
    simp only [store_result, h]
    by_cases h1 : 0 < df.length
    · by_cases h2 : (columnsOf df).contains "ai_severity_score" = true
      · rw [if_pos h1, if_pos h2]
        exact ⟨fun _ => ⟨List.ne_nil_of_length_pos h1, h2⟩, fun _ => rfl⟩
      · rw [if_pos h1, if_neg h2]
        exact ⟨fun hh => by simp at hh, fun hh => absurd hh.2 h2⟩
    · rw [if_neg h1]
      have hnil : df = [] := by
        cases df with
        | nil => rfl
        | cons a l => simp at h1
      exact ⟨fun hh => by simp at hh, fun hh => absurd hnil hh.1⟩

/-- Witness for the amended C3: a one-row batch carrying the severity column
is stored. -/
theorem c3_validation_amended_witness :
    parse_response (JVal.obj [("records",
        JVal.arr [JVal.obj [("ai_severity_score", JVal.int 5)]])]) =
      some ([JVal.obj [("ai_severity_score", JVal.int 5)]], JVal.obj []) ∧
    store_result (JVal.obj [("records",
        JVal.arr [JVal.obj [("ai_severity_score", JVal.int 5)]])]) =
      some ([JVal.obj [("ai_severity_score", JVal.int 5)]], JVal.obj []) :=
  ⟨rfl,
    ((c3_validation_amended (JVal.obj [("records",
        JVal.arr [JVal.obj [("ai_severity_score", JVal.int 5)]])])).2
      [JVal.obj [("ai_severity_score", JVal.int 5)]] (JVal.obj []) rfl).mpr
      ⟨by simp, rfl⟩⟩

/-- C10: any stored result has a non-empty table carrying the
`ai_severity_score` column; hence the renderer's divisions by the table
length are divisions by a positive count and the zero-guard branch of
`per_rec` is not taken. -/
theorem c10_stored_result_invariant (data : JVal) (df : List JVal) (outputs : JVal) (t : ℚ) :
    store_result data = some (df, outputs) →
    0 < df.length ∧ (columnsOf df).contains "ai_severity_score" = true ∧
      (0 : ℚ) < (df.length : ℚ) ∧ per_rec t df.length = t / (df.length : ℚ) := by
  intro h
  cases hp : parse_response data with
  | none => simp [store_result, hp] at h
  | some p =>
    obtain ⟨df0, out0⟩ := p
    simp only [store_result, hp] at h
    by_cases h1 : 0 < df0.length
    · by_cases h2 : (columnsOf df0).contains "ai_severity_score" = true
      · rw [if_pos h1, if_pos h2] at h
        simp only [Option.some.injEq, Prod.mk.injEq] at h
        obtain ⟨rfl, rfl⟩ := h
        refine ⟨h1, h2, by exact_mod_cast h1, ?_⟩
        unfold per_rec
        rw [if_pos h1]
      · rw [if_pos h1, if_neg h2] at h
        simp at h
    · rw [if_neg h1] at h
      simp at h

/-- Witness for C10 at a concrete stored two-row batch. -/
theorem c10_stored_result_invariant_witness :
    store_result (JVal.obj [("records", JVal.arr
        [JVal.obj [("ai_severity_score", JVal.int 4)],
         JVal.obj [("ai_severity_score", JVal.int 2)]])]) =
      some ([JVal.obj [("ai_severity_score", JVal.int 4)],
             JVal.obj [("ai_severity_score", JVal.int 2)]], JVal.obj []) ∧
    (0 < ([JVal.obj [("ai_severity_score", JVal.int 4)],
           JVal.obj [("ai_severity_score", JVal.int 2)]] : List JVal).length ∧
      (columnsOf [JVal.obj [("ai_severity_score", JVal.int 4)],
           JVal.obj [("ai_severity_score", JVal.int 2)]]).contains "ai_severity_score" = true ∧
      (0 : ℚ) < (([JVal.obj [("ai_severity_score", JVal.int 4)],
           JVal.obj [("ai_severity_score", JVal.int 2)]] : List JVal).length : ℚ) ∧
      per_rec 5 ([JVal.obj [("ai_severity_score", JVal.int 4)],
           JVal.obj [("ai_severity_score", JVal.int 2)]] : List JVal).length =
        5 / (([JVal.obj [("ai_severity_score", JVal.int 4)],
           JVal.obj [("ai_severity_score", JVal.int 2)]] : List JVal).length : ℚ)) :=
  ⟨rfl, c10_stored_result_invariant
    (JVal.obj [("records", JVal.arr
        [JVal.obj [("ai_severity_score", JVal.int 4)],
         JVal.obj [("ai_severity_score", JVal.int 2)]])])
    [JVal.obj [("ai_severity_score", JVal.int 4)],
     JVal.obj [("ai_severity_score", JVal.int 2)]] (JVal.obj []) 5 rfl⟩

/-! ### Severity distribution (C8) -/

theorem idxmaxAux_cons_ne_none (a : Int × Nat) (tl : List (Int × Nat)) :
    idxmaxAux (a :: tl) ≠ none := by
  simp only [idxmaxAux]
  cases idxmaxAux tl <;> simp

theorem idxmaxAux_isSome_of_ne_nil (l : List (Int × Nat)) (h : l ≠ []) :
    ∃ p, idxmaxAux l = some p := by
  cases l with
  | nil => exact absurd rfl h
  | cons a tl =>
    cases hm : idxmaxAux (a :: tl) with
    | none => exact absurd hm (idxmaxAux_cons_ne_none a tl)
    | some p => exact ⟨p, rfl⟩

/-- `idxmaxAux` returns an entry of the list with maximal count; on ties the
earliest entry wins, which on a value-sorted list is the smallest value. -/
theorem idxmax_spec (l : List (Int × Nat)) (hsort : (l.map Prod.fst).Sorted (· < ·))
    (p : Int × Nat) (hp : idxmaxAux l = some p) :
    p ∈ l ∧ (∀ q ∈ l, q.2 ≤ p.2) ∧ (∀ q ∈ l, q.2 = p.2 → p.1 ≤ q.1) := by
  induction l generalizing p with
  | nil => simp [idxmaxAux] at hp
  | cons a tl ih =>
    have hsort' : (a.1 :: tl.map Prod.fst).Sorted (· < ·) := by simpa using hsort
    have hhead : ∀ b ∈ tl.map Prod.fst, a.1 < b := (List.sorted_cons.mp hsort').1
    have hsort_tl : (tl.map Prod.fst).Sorted (· < ·) := (List.sorted_cons.mp hsort').2
    simp only [idxmaxAux] at hp
    cases htl : idxmaxAux tl with
    | none =>
      rw [htl] at hp
      simp only [Option.some.injEq] at hp
      subst hp
      have htlnil : tl = [] := by
        cases tl with
        | nil => rfl
        | cons b tb => exact absurd htl (idxmaxAux_cons_ne_none b tb)
      subst htlnil
      refine ⟨List.mem_singleton_self a, ?_, ?_⟩
      · intro q hq
        rw [List.mem_singleton.mp hq]
      · intro q hq _
        rw [List.mem_singleton.mp hq]
    | some q =>
      rw [htl] at hp
      simp only [Option.some.injEq] at hp
      obtain ⟨hqmem, hqmax, hqtie⟩ := ih hsort_tl q htl
      by_cases hgt : q.2 > a.2
      · rw [if_pos hgt] at hp
        subst hp
        refine ⟨List.mem_cons_of_mem a hqmem, ?_, ?_⟩
        · intro r hr
          rcases List.mem_cons.mp hr with rfl | hr'
          · omega
          · exact hqmax r hr'
        · intro r hr hre
          rcases List.mem_cons.mp hr with rfl | hr'
          · omega
          · exact hqtie r hr' hre
      · rw [if_neg hgt] at hp
        subst hp
        refine ⟨List.mem_cons_self a tl, ?_, ?_⟩
        · intro r hr
          rcases List.mem_cons.mp hr with rfl | hr'
          · exact le_refl _
          · exact le_trans (hqmax r hr') (by omega)
        · intro r hr _
          rcases List.mem_cons.mp hr with rfl | hr'
          · exact le_refl _
          · exact le_of_lt (hhead r.1 (List.mem_map_of_mem Prod.fst hr'))

/-- The property C8 asserts of the severity distribution: counts per distinct
value in ascending value order, and a mode with maximal count where ties go
to the smallest value. -/
def SeverityDistSpec (scores : List Int) : Prop :=
  ((value_counts_sorted scores).map Prod.fst).Sorted (· < ·) ∧
  (∀ v : Int, v ∈ (value_counts_sorted scores).map Prod.fst ↔ v ∈ scores) ∧
  (∀ p ∈ value_counts_sorted scores, p.2 = scores.count p.1) ∧
  (∃ m : Int, series_idxmax (value_counts_sorted scores) = some m ∧ m ∈ scores ∧
    (∀ v ∈ scores, scores.count v ≤ scores.count m) ∧
    (∀ v ∈ scores, scores.count v = scores.count m → m ≤ v))

/-- C8: for every non-empty severity column, the rendered distribution counts
rows per distinct severity value in ascending value order, and the reported
mode (`s.idxmax()`) is the severity value of maximal count, ties broken by
the smallest value. -/
theorem c8_severity_distribution (scores : List Int) (h : scores ≠ []) :
    SeverityDistSpec scores := by
  have hfst : (value_counts_sorted scores).map Prod.fst =
      (scores.dedup).insertionSort (fun a b => a ≤ b) := by
    simp only [value_counts_sorted, List.map_map]
    exact List.map_id _
  have hvals_sorted_le : ((scores.dedup).insertionSort (fun a b => a ≤ b)).Sorted (· ≤ ·) :=
    List.sorted_insertionSort _ _
  have hvals_nodup : ((scores.dedup).insertionSort (fun a b => a ≤ b)).Nodup :=
    ((List.perm_insertionSort _ _).nodup_iff).mpr (List.nodup_dedup _)
  have hvals_sorted : ((scores.dedup).insertionSort (fun a b => a ≤ b)).Sorted (· < ·) :=
    hvals_sorted_le.lt_of_le hvals_nodup
  have hmem : ∀ v : Int, v ∈ (scores.dedup).insertionSort (fun a b => a ≤ b) ↔ v ∈ scores :=
    fun v => by rw [List.mem_insertionSort, List.mem_dedup]
  refine ⟨by rw [hfst]; exact hvals_sorted, ?_, ?_, ?_⟩
  · intro v
    rw [hfst]
    exact hmem v
  · intro p hp
    obtain ⟨v, _, hpv⟩ := List.mem_map.mp hp
    subst hpv
    rfl
  · have hvc_ne : value_counts_sorted scores ≠ [] := by
      obtain ⟨s0, hs0⟩ := List.exists_mem_of_ne_nil scores h
      intro hnil
      have hs0v : (s0, scores.count s0) ∈ value_counts_sorted scores :=
        List.mem_map.mpr ⟨s0, (hmem s0).mpr hs0, rfl⟩
      rw [hnil] at hs0v
      exact absurd hs0v (List.not_mem_nil _)
    obtain ⟨p, hmax⟩ := idxmaxAux_isSome_of_ne_nil _ hvc_ne
    obtain ⟨pmem, pmax, ptie⟩ :=
      idxmax_spec _ (by rw [hfst]; exact hvals_sorted) p hmax
    obtain ⟨v0, hv0, hpv0⟩ := List.mem_map.mp pmem
    subst hpv0
    refine ⟨v0, by simp [series_idxmax, hmax], (hmem v0).mp hv0, ?_, ?_⟩
    · intro v hv
      exact pmax (v, scores.count v) (List.mem_map.mpr ⟨v, (hmem v).mpr hv, rfl⟩)
    · intro v hv he
      exact ptie (v, scores.count v) (List.mem_map.mpr ⟨v, (hmem v).mpr hv, rfl⟩) he

/-- Witness for C8 at the concrete column `[2,2,1,1,3]` (counts `1:2, 2:2,
3:1`; the mode is `1`). -/
theorem c8_severity_distribution_witness :
    ([2, 2, 1, 1, 3] : List Int) ≠ [] ∧ SeverityDistSpec [2, 2, 1, 1, 3] :=
  ⟨by simp, c8_severity_distribution [2, 2, 1, 1, 3] (by simp)⟩

/-! ### Codec round-trip lemmas -/

theorem toDigitVal_digitChar (k : Nat) (h : k < 10) : toDigitVal (digitChar k) = k := by
  interval_cases k <;> rfl

theorem isDigit_digitChar (k : Nat) (h : k < 10) : (digitChar k).isDigit = true := by
  interval_cases k <;> decide

theorem natDigits_ne_nil (n : Nat) : natDigits n ≠ [] := by
  rw [natDigits]
  split <;> simp

theorem natDigits_isDigit (n : Nat) : ∀ c ∈ natDigits n, c.isDigit = true := by
  induction n using Nat.strong_induction_on with
  | _ n ih =>
    rw [natDigits]
    split
    · next h =>
      intro c hc
      rw [List.mem_singleton.mp hc]
      exact isDigit_digitChar n h
    · next h =>
      intro c hc
      rcases List.mem_append.mp hc with h1 | h2
      · exact ih (n / 10) (Nat.div_lt_self (by omega) (by omega)) c h1
      · rw [List.mem_singleton.mp h2]
        exact isDigit_digitChar (n % 10) (Nat.mod_lt _ (by omega))

theorem natFromDigits_append_digit (ds : List Char) (d : Char) :
    natFromDigits (ds ++ [d]) = 10 * natFromDigits ds + toDigitVal d := by
  simp [natFromDigits, List.foldl_append]

theorem natFromDigits_natDigits (n : Nat) : natFromDigits (natDigits n) = n := by
  induction n using Nat.strong_induction_on with
  | _ n ih =>
    rw [natDigits]
    split
    · next h => simp [natFromDigits, toDigitVal_digitChar n h]
    · next h =>
      rw [natFromDigits_append_digit, ih (n / 10) (Nat.div_lt_self (by omega) (by omega)),
        toDigitVal_digitChar (n % 10) (Nat.mod_lt _ (by omega))]
      omega

/-- The continuation after a serialised value never starts with a digit. -/
def noDigitHead : List Char → Bool
  | [] => true
  | c :: _ => !c.isDigit

theorem spanDigits_append (ds rest : List Char) (hds : ∀ c ∈ ds, c.isDigit = true)
    (hrest : noDigitHead rest = true) : spanDigits (ds ++ rest) = (ds, rest) := by
  induction ds with
  | nil =>
    cases rest with
    | nil => rfl
    | cons c cs =>
      simp only [noDigitHead, Bool.not_eq_true'] at hrest
      simp [spanDigits, hrest]
  | cons d ds ih =>
    have hd : d.isDigit = true := hds d (List.mem_cons_self _ _)
    simp [spanDigits, hd, ih (fun c hc => hds c (List.mem_cons_of_mem _ hc))]

theorem parseStr_quote (cs : List Char) : parseStr ('"' :: cs) = some ([], cs) := by
  rw [parseStr.eq_def]
  exact rfl

theorem parseStr_backslash (d : Char) (cs : List Char) :
    parseStr ('\\' :: d :: cs) = (parseStr cs).map (fun p => (d :: p.1, p.2)) := by
  rw [parseStr.eq_def]
  exact rfl

theorem parseStr_other (c : Char) (cs : List Char) (h1 : c ≠ '\\') (h2 : c ≠ '"') :
    parseStr (c :: cs) = (parseStr cs).map (fun p => (c :: p.1, p.2)) := by
  rw [parseStr.eq_def]
  simp only [if_neg h1, if_neg h2]

theorem parseStr_escape (l rest : List Char) :
    parseStr (escape l ++ '"' :: rest) = some (l, rest) := by
  induction l with
  | nil => simpa using parseStr_quote rest
  | cons c cs ih =>
    by_cases hc : c = '"' ∨ c = '\\'
    · have he : escape (c :: cs) = '\\' :: c :: escape cs := by
        simp [escape, escChar, if_pos hc]
      rw [he, List.cons_append, List.cons_append, parseStr_backslash, ih]
      rfl
    · have he : escape (c :: cs) = c :: escape cs := by
        simp [escape, escChar, if_neg hc]
      have h1 : c ≠ '\\' := fun hh => hc (Or.inr hh)
      have h2 : c ≠ '"' := fun hh => hc (Or.inl hh)
      rw [he, List.cons_append, parseStr_other c _ h1 h2, ih]
      rfl

theorem isDigit_not_special (c : Char) (h : c.isDigit = true) :
    c ≠ '"' ∧ c ≠ '[' ∧ c ≠ '{' ∧ c ≠ '-' := by
  refine ⟨?_, ?_, ?_, ?_⟩ <;> rintro rfl <;> exact absurd h (by decide)

theorem dumpVal_head (v : JVal) :
    ∃ c t, dumpVal v = c :: t ∧ c ≠ ']' ∧ c ≠ '}' := by
  cases v with
  | null => exact ⟨'n', ['u', 'l', 'l'], by simp [dumpVal], by decide, by decide⟩
  | bool b =>
    cases b with
    | false => exact ⟨'f', ['a', 'l', 's', 'e'], by simp [dumpVal], by decide, by decide⟩
    | true => exact ⟨'t', ['r', 'u', 'e'], by simp [dumpVal], by decide, by decide⟩
  | int n =>
    by_cases hn : n < 0
    · exact ⟨'-', natDigits n.natAbs, by simp [dumpVal, dumpInt, if_pos hn], by decide, by decide⟩
    · obtain ⟨c, t, hct⟩ : ∃ c t, natDigits n.toNat = c :: t := by
        cases hnd : natDigits n.toNat with
        | nil => exact absurd hnd (natDigits_ne_nil _)
        | cons c t => exact ⟨c, t, rfl⟩
      have hcd : c.isDigit = true :=
        natDigits_isDigit n.toNat c (by rw [hct]; exact List.mem_cons_self _ _)
      refine ⟨c, t, by simp [dumpVal, dumpInt, if_neg hn, hct], ?_, ?_⟩ <;>
        rintro rfl <;> exact absurd hcd (by decide)
  | str s => exact ⟨'"', escape s.data ++ ['"'], by simp [dumpVal], by decide, by decide⟩
  | arr xs =>
    cases xs with
    | nil => exact ⟨'[', [']'], by simp [dumpVal], by decide, by decide⟩
    | cons x xt =>
      exact ⟨'[', dumpItems x xt ++ [']'], by simp [dumpVal], by decide, by decide⟩
  | obj fs =>
    cases fs with
    | nil => exact ⟨'{', ['}'], by simp [dumpVal], by decide, by decide⟩
    | cons f ft =>
      exact ⟨'{', dumpFields f ft ++ ['}'], by simp [dumpVal], by decide, by decide⟩

theorem dumpItems_head (x : JVal) (xs : List JVal) :
    ∃ c t, dumpItems x xs = c :: t ∧ c ≠ ']' ∧ c ≠ '}' := by
  obtain ⟨c, t, hv, h1, h2⟩ := dumpVal_head x
  cases xs with
  | nil => exact ⟨c, t, by simp [dumpItems, hv], h1, h2⟩
  | cons y ys => exact ⟨c, t ++ ',' :: dumpItems y ys, by simp [dumpItems, hv], h1, h2⟩

theorem dumpFields_head (f : String × JVal) (fs : List (String × JVal)) :
    ∃ t, dumpFields f fs = '"' :: t := by
  obtain ⟨k, v⟩ := f
  cases fs with
  | nil => exact ⟨escape k.data ++ '"' :: ':' :: dumpVal v, by simp [dumpFields]⟩
  | cons g gs =>
    exact ⟨(escape k.data ++ '"' :: ':' :: dumpVal v) ++ ',' :: dumpFields g gs,
      by simp [dumpFields]⟩

theorem parseVal_null (fl : Nat) (rest : List Char) :
    parseVal (fl + 1) ('n' :: 'u' :: 'l' :: 'l' :: rest) = some (JVal.null, rest) := by
  rw [parseVal.eq_def]
  exact rfl

theorem parseVal_true (fl : Nat) (rest : List Char) :
    parseVal (fl + 1) ('t' :: 'r' :: 'u' :: 'e' :: rest) = some (JVal.bool true, rest) := by
  rw [parseVal.eq_def]
  exact rfl

theorem parseVal_false (fl : Nat) (rest : List Char) :
    parseVal (fl + 1) ('f' :: 'a' :: 'l' :: 's' :: 'e' :: rest) =
      some (JVal.bool false, rest) := by
  rw [parseVal.eq_def]
  exact rfl

theorem parseVal_quote (fl : Nat) (cs : List Char) :
    parseVal (fl + 1) ('"' :: cs) =
      (parseStr cs).map (fun p => (JVal.str (String.mk p.1), p.2)) := by
  rw [parseVal.eq_def]
  exact rfl

theorem parseVal_arr_nil (fl : Nat) (rest : List Char) :
    parseVal (fl + 1) ('[' :: ']' :: rest) = some (JVal.arr [], rest) := by
  rw [parseVal.eq_def]
  exact rfl

theorem parseVal_arr_cons (fl : Nat) (d : Char) (cs2 : List Char) (hd : d ≠ ']') :
    parseVal (fl + 1) ('[' :: d :: cs2) =
      (parseItems fl (d :: cs2)).map (fun p => (JVal.arr p.1, p.2)) := by
  rw [parseVal.eq_def]
  simp only [if_neg hd]
  exact rfl

theorem parseVal_obj_nil (fl : Nat) (rest : List Char) :
    parseVal (fl + 1) ('{' :: '}' :: rest) = some (JVal.obj [], rest) := by
  rw [parseVal.eq_def]
  exact rfl

theorem parseVal_obj_cons (fl : Nat) (d : Char) (cs2 : List Char) (hd : d ≠ '}') :
    parseVal (fl + 1) ('{' :: d :: cs2) =
      (parseFields fl (d :: cs2)).map (fun p => (JVal.obj p.1, p.2)) := by
  rw [parseVal.eq_def]
  simp only [if_neg hd]
  exact rfl

theorem parseVal_neg (fl : Nat) (cs : List Char) (d : Char) (ds rest : List Char)
    (hsp : spanDigits cs = (d :: ds, rest)) :
    parseVal (fl + 1) ('-' :: cs) =
      some (JVal.int (-(natFromDigits (d :: ds) : Int)), rest) := by
  rw [parseVal.eq_def]
  simp [hsp]

theorem parseVal_digit (fl : Nat) (c : Char) (cs : List Char) (d : Char)
    (ds rest : List Char) (hc : c.isDigit = true)
    (hsp : spanDigits (c :: cs) = (d :: ds, rest)) :
    parseVal (fl + 1) (c :: cs) =
      some (JVal.int (natFromDigits (d :: ds) : Int), rest) := by
  obtain ⟨h1, h2, h3, h4⟩ := isDigit_not_special c hc
  rw [parseVal.eq_def]
  simp only [if_neg h1, if_neg h2, if_neg h3, if_neg h4, if_pos hc, hsp]

theorem parseItems_done (fl : Nat) (cs : List Char) (v : JVal) (r2 : List Char)
    (hv : parseVal fl cs = some (v, ']' :: r2)) :
    parseItems (fl + 1) cs = some ([v], r2) := by
  rw [parseItems.eq_def]
  simp only [hv, Option.some_bind]

theorem parseItems_comma (fl : Nat) (cs : List Char) (v : JVal) (r2 : List Char)
    (vs : List JVal) (r3 : List Char) (hv : parseVal fl cs = some (v, ',' :: r2))
    (hi : parseItems fl r2 = some (vs, r3)) :
    parseItems (fl + 1) cs = some (v :: vs, r3) := by
  rw [parseItems.eq_def]
  simp only [hv, hi, Option.some_bind, Option.map_some']

theorem parseFields_done (fl : Nat) (cs1 : List Char) (k : List Char) (r2 : List Char)
    (v : JVal) (r4 : List Char) (hk : parseStr cs1 = some (k, ':' :: r2))
    (hv : parseVal fl r2 = some (v, '}' :: r4)) :
    parseFields (fl + 1) ('"' :: cs1) = some ([(String.mk k, v)], r4) := by
  rw [parseFields.eq_def]
  simp only [hk, hv, Option.some_bind]

theorem parseFields_comma (fl : Nat) (cs1 : List Char) (k : List Char) (r2 : List Char)
    (v : JVal) (r4 : List Char) (fs : List (String × JVal)) (r5 : List Char)
    (hk : parseStr cs1 = some (k, ':' :: r2))
    (hv : parseVal fl r2 = some (v, ',' :: r4))
    (hf : parseFields fl r4 = some (fs, r5)) :
    parseFields (fl + 1) ('"' :: cs1) = some ((String.mk k, v) :: fs, r5) := by
  rw [parseFields.eq_def]
  simp only [hk, hv, hf, Option.some_bind, Option.map_some']

/-- Round-trip of the serialiser and the parser, by induction on the parser
fuel: parsing a serialised value consumes exactly its text. -/
theorem parse_dump (fuel : Nat) :
    (∀ (v : JVal) (rest : List Char), (dumpVal v).length < fuel →
      noDigitHead rest = true → parseVal fuel (dumpVal v ++ rest) = some (v, rest)) ∧
    (∀ (x : JVal) (xs : List JVal) (rest : List Char),
      (dumpItems x xs).length + 1 < fuel →
      parseItems fuel (dumpItems x xs ++ ']' :: rest) = some (x :: xs, rest)) ∧
    (∀ (f : String × JVal) (fs : List (String × JVal)) (rest : List Char),
      (dumpFields f fs).length + 1 < fuel →
      parseFields fuel (dumpFields f fs ++ '}' :: rest) = some (f :: fs, rest)) := by
  induction fuel with
  | zero =>
    exact ⟨fun v rest h _ => absurd h (Nat.not_lt_zero _),
      fun x xs rest h => absurd h (Nat.not_lt_zero _),
      fun f fs rest h => absurd h (Nat.not_lt_zero _)⟩
  | succ fl ih =>
    obtain ⟨ihP, ihQ, ihR⟩ := ih
    refine ⟨?_, ?_, ?_⟩
    · intro v rest hlen hrest
      cases v with
      | null =>
        have hd : dumpVal JVal.null ++ rest = 'n' :: 'u' :: 'l' :: 'l' :: rest := by
          simp [dumpVal]
        rw [hd, parseVal_null]
      | bool b =>
        cases b with
        | true =>
          have hd : dumpVal (JVal.bool true) ++ rest = 't' :: 'r' :: 'u' :: 'e' :: rest := by
            simp [dumpVal]
          rw [hd, parseVal_true]
        | false =>
          have hd : dumpVal (JVal.bool false) ++ rest
              = 'f' :: 'a' :: 'l' :: 's' :: 'e' :: rest := by simp [dumpVal]
          rw [hd, parseVal_false]
      | int n =>
        by_cases hn : n < 0
        · obtain ⟨d, ds, hdd⟩ : ∃ d ds, natDigits n.natAbs = d :: ds := by
            cases hx : natDigits n.natAbs with
            | nil => exact absurd hx (natDigits_ne_nil _)
            | cons d ds => exact ⟨d, ds, rfl⟩
          have hdump : dumpVal (JVal.int n) = '-' :: (d :: ds) := by
            simp [dumpVal, dumpInt, if_pos hn, hdd]
          have hsp : spanDigits ((d :: ds) ++ rest) = (d :: ds, rest) :=
            spanDigits_append _ _ (fun c hc => natDigits_isDigit _ c (hdd ▸ hc)) hrest
          rw [hdump,
            show ('-' :: (d :: ds)) ++ rest = '-' :: ((d :: ds) ++ rest) from rfl,
            parseVal_neg fl _ d ds rest hsp, ← hdd, natFromDigits_natDigits]
          have hval : (-(n.natAbs : Int)) = n := by omega
          rw [hval]
        · obtain ⟨d, ds, hdd⟩ : ∃ d ds, natDigits n.toNat = d :: ds := by
            cases hx : natDigits n.toNat with
            | nil => exact absurd hx (natDigits_ne_nil _)
            | cons d ds => exact ⟨d, ds, rfl⟩
          have hdump : dumpVal (JVal.int n) = d :: ds := by
            simp [dumpVal, dumpInt, if_neg hn, hdd]
          have hc : d.isDigit = true :=
            natDigits_isDigit n.toNat d (by rw [hdd]; exact List.mem_cons_self _ _)
          have hsp : spanDigits ((d :: ds) ++ rest) = (d :: ds, rest) :=
            spanDigits_append _ _ (fun c hc => natDigits_isDigit _ c (hdd ▸ hc)) hrest
          rw [hdump,
            show (d :: ds) ++ rest = d :: (ds ++ rest) from rfl,
            parseVal_digit fl d (ds ++ rest) d ds rest hc hsp, ← hdd,
            natFromDigits_natDigits]
          have hval : ((n.toNat : Nat) : Int) = n := by omega
          rw [hval]
      | str s =>
        have hd : dumpVal (JVal.str s) ++ rest
            = '"' :: (escape s.data ++ '"' :: rest) := by simp [dumpVal]
        rw [hd, parseVal_quote, parseStr_escape]
        rfl
      | arr xs =>
        cases xs with
        | nil =>
          have hd : dumpVal (JVal.arr []) ++ rest = '[' :: ']' :: rest := by simp [dumpVal]
          rw [hd, parseVal_arr_nil]
        | cons x xt =>
          obtain ⟨c, t, hit, hc1, hc2⟩ := dumpItems_head x xt
          have hlens : (dumpVal (JVal.arr (x :: xt))).length
              = (dumpItems x xt).length + 2 := by
            simp [dumpVal]
          have hq := ihQ x xt rest (by omega)
          have hd : dumpVal (JVal.arr (x :: xt)) ++ rest
              = '[' :: (dumpItems x xt ++ ']' :: rest) := by simp [dumpVal]
          rw [hd, hit, show (c :: t) ++ ']' :: rest = c :: (t ++ ']' :: rest) from rfl,
            parseVal_arr_cons fl c _ hc1,
            show c :: (t ++ ']' :: rest) = (c :: t) ++ ']' :: rest from rfl, ← hit, hq]
          rfl
      | obj fs =>
        cases fs with
        | nil =>
          have hd : dumpVal (JVal.obj []) ++ rest = '{' :: '}' :: rest := by simp [dumpVal]
          rw [hd, parseVal_obj_nil]
        | cons f ft =>
          obtain ⟨t, hft⟩ := dumpFields_head f ft
          have hlens : (dumpVal (JVal.obj (f :: ft))).length
              = (dumpFields f ft).length + 2 := by
            simp [dumpVal]
          have hr := ihR f ft rest (by omega)
          have hd : dumpVal (JVal.obj (f :: ft)) ++ rest
              = '{' :: (dumpFields f ft ++ '}' :: rest) := by simp [dumpVal]
          rw [hd, hft, show ('"' :: t) ++ '}' :: rest = '"' :: (t ++ '}' :: rest) from rfl,
            parseVal_obj_cons fl '"' _ (by decide),
            show '"' :: (t ++ '}' :: rest) = ('"' :: t) ++ '}' :: rest from rfl, ← hft, hr]
          rfl
    · intro x xs rest hlen
      cases xs with
      | nil =>
        have hitem : dumpItems x [] = dumpVal x := by simp [dumpItems]
        have hlx : (dumpVal x).length < fl := by rw [hitem] at hlen; omega
        have hv := ihP x (']' :: rest) hlx (by rfl)
        rw [show dumpItems x [] ++ ']' :: rest = dumpVal x ++ ']' :: rest from by
          rw [hitem]]
        exact parseItems_done fl _ x rest hv
      | cons y ys =>
        have hitem : dumpItems x (y :: ys) = dumpVal x ++ ',' :: dumpItems y ys := by
          simp [dumpItems]
        have hlenA := hlen
        rw [hitem] at hlenA
        simp only [List.length_append, List.length_cons] at hlenA
        have hv := ihP x (',' :: (dumpItems y ys ++ ']' :: rest)) (by omega) (by rfl)
        have hi := ihQ y ys rest (by omega)
        rw [show dumpItems x (y :: ys) ++ ']' :: rest
            = dumpVal x ++ ',' :: (dumpItems y ys ++ ']' :: rest) from by
          rw [hitem]; simp [List.append_assoc]]
        exact parseItems_comma fl _ x _ (y :: ys) rest hv hi
    · intro f fs rest hlen
      obtain ⟨k, v⟩ := f
      cases fs with
      | nil =>
        have hfield : dumpFields (k, v) []
            = '"' :: (escape k.data ++ '"' :: ':' :: dumpVal v) := by simp [dumpFields]
        have hlenA := hlen
        rw [hfield] at hlenA
        simp only [List.length_append, List.length_cons] at hlenA
        have hv := ihP v ('}' :: rest) (by omega) (by rfl)
        rw [show dumpFields (k, v) [] ++ '}' :: rest
            = '"' :: (escape k.data ++ '"' :: (':' :: (dumpVal v ++ '}' :: rest))) from by
          rw [hfield]; simp [List.append_assoc]]
        exact parseFields_done fl _ k.data _ v rest (parseStr_escape _ _) hv
      | cons g gs =>
        have hfield : dumpFields (k, v) (g :: gs)
            = ('"' :: (escape k.data ++ '"' :: ':' :: dumpVal v)) ++ ',' :: dumpFields g gs := by
          simp [dumpFields]
        have hlenA := hlen
        rw [hfield] at hlenA
        simp only [List.length_append, List.length_cons] at hlenA
        have hv := ihP v (',' :: (dumpFields g gs ++ '}' :: rest)) (by omega) (by rfl)
        have hf := ihR g gs rest (by omega)
        rw [show dumpFields (k, v) (g :: gs) ++ '}' :: rest
            = '"' :: (escape k.data ++ '"' :: (':' ::
              (dumpVal v ++ ',' :: (dumpFields g gs ++ '}' :: rest)))) from by
          rw [hfield]; simp [List.append_assoc]]
        exact parseFields_comma fl _ k.data _ v _ (g :: gs) rest (parseStr_escape _ _) hv hf

/-- `json.loads` is a left inverse of the JSON serialiser. -/
theorem loads_dumps (v : JVal) : loads (dumps v) = some v := by
  have hP := (parse_dump ((dumpVal v).length + 1)).1 v [] (Nat.lt_succ_self _) rfl
  rw [List.append_nil] at hP
  unfold loads dumps
  simp only [hP]

/-- A string payload whose text decodes to `u` is normalised exactly as the
decoded value `u` is dispatched. -/
theorem parse_response_str_of_loads (s : String) (u : JVal) (h : loads s = some u) :
    parse_response (JVal.str s) = parse_decoded u := by
  rw [parse_response.eq_def]
  simp only [h]

/-- C1 counterexample: the payload `"\"abc\""` (a JSON-encoded string whose
content is not itself valid JSON) is wrapped by `parse_response` into a
one-row table, whereas the recursive normalization the claim describes would
re-parse `"abc"` and fail with a parse error. -/
theorem c1_counterexample :
    parse_response (JVal.str "\"abc\"") = some ([JVal.str "abc"], JVal.obj []) ∧
    loads "abc" = none ∧
    normalize_spec 9 (JVal.str "\"abc\"") = none :=
  ⟨rfl, rfl, rfl⟩

/-- C1 (amended): a string payload is parsed as JSON once (failing on invalid
JSON) and the parsed value is dispatched through the remaining cases without
re-parsing (a parsed value that is again a string becomes a one-row table);
a mapping with a `"records"` key yields its `"records"` value as the ordered
row sequence and `"outputs"` (or the empty mapping) as metadata; a sequence
yields itself with empty metadata; any other value is wrapped as a one-row
table with empty metadata. -/
theorem c1_normalize_dispatch :
    (∀ s : String, loads s = none → parse_response (JVal.str s) = none) ∧
    (∀ (s : String) (u : JVal), loads s = some u →
      parse_response (JVal.str s) = parse_decoded u) ∧
    (∀ t : String, parse_decoded (JVal.str t) = some ([JVal.str t], JVal.obj [])) ∧
    (∀ (fs : List (String × JVal)) (rows : List JVal),
      lookupField fs "records" = some (JVal.arr rows) →
      parse_decoded (JVal.obj fs) =
        some (rows, (lookupField fs "outputs").getD (JVal.obj []))) ∧
    (∀ fs : List (String × JVal), lookupField fs "records" = none →
      parse_decoded (JVal.obj fs) = some ([JVal.obj fs], JVal.obj [])) ∧
    (∀ xs : List JVal, parse_decoded (JVal.arr xs) = some (xs, JVal.obj [])) ∧
    (parse_decoded JVal.null = some ([JVal.null], JVal.obj []) ∧
      (∀ b : Bool, parse_decoded (JVal.bool b) = some ([JVal.bool b], JVal.obj [])) ∧
      (∀ n : Int, parse_decoded (JVal.int n) = some ([JVal.int n], JVal.obj []))) ∧
    (∀ u : JVal, (∀ t : String, u ≠ JVal.str t) →
      parse_response u = parse_decoded u) := by
  refine ⟨?_, ?_, fun t => rfl, ?_, ?_, fun xs => rfl,
    ⟨rfl, fun b => rfl, fun n => rfl⟩, ?_⟩
  · intro s h
    rw [parse_response.eq_def]
    simp only [h]
  · intro s u h
    rw [parse_response.eq_def]
    simp only [h]
  · intro fs rows h
    simp [parse_decoded, h, pdDataFrame]
  · intro fs h
    simp [parse_decoded, h]
  · intro u hu
    cases u with
    | str t => exact absurd rfl (hu t)
    | null => rfl
    | bool b => rfl
    | int n => rfl
    | arr xs => rfl
    | obj fs => rfl

/-- Witness for the amended C1: the `"records"`-mapping clause at a concrete
payload with an `"outputs"` mapping. -/
theorem c1_normalize_dispatch_witness :
    lookupField [("records", JVal.arr [JVal.int 1, JVal.int 2]),
        ("outputs", JVal.obj [("note", JVal.str "x")])] "records" =
      some (JVal.arr [JVal.int 1, JVal.int 2]) ∧
    parse_decoded (JVal.obj [("records", JVal.arr [JVal.int 1, JVal.int 2]),
        ("outputs", JVal.obj [("note", JVal.str "x")])]) =
      some ([JVal.int 1, JVal.int 2],
        (lookupField [("records", JVal.arr [JVal.int 1, JVal.int 2]),
          ("outputs", JVal.obj [("note", JVal.str "x")])] "outputs").getD (JVal.obj [])) :=
  ⟨rfl, c1_normalize_dispatch.2.2.2.1 _ [JVal.int 1, JVal.int 2] rfl⟩

theorem lookupField_foldl_of_not_mem (fs : List (String × JVal)) (k : String)
    (h : k ∉ fs.map Prod.fst) (init : Option JVal) :
    fs.foldl (fun acc p => if p.1 = k then some p.2 else acc) init = init := by
  induction fs generalizing init with
  | nil => rfl
  | cons p fs ih =>
    simp only [List.map_cons, List.mem_cons, not_or] at h
    rw [List.foldl_cons, if_neg (fun hh => h.1 hh.symm)]
    exact ih h.2 init

theorem lookupField_cons_self (k0 : String) (v0 : JVal) (fs : List (String × JVal))
    (h : k0 ∉ fs.map Prod.fst) : lookupField ((k0, v0) :: fs) k0 = some v0 := by
  unfold lookupField
  rw [List.foldl_cons, if_pos rfl]
  exact lookupField_foldl_of_not_mem fs k0 h _

theorem lookupField_cons_ne (k0 : String) (v0 : JVal) (fs : List (String × JVal))
    (k : String) (h : k ≠ k0) : lookupField ((k0, v0) :: fs) k = lookupField fs k := by
  unfold lookupField
  rw [List.foldl_cons, if_neg (fun hh => h hh.symm)]

/-- A row with distinct keys is recovered from its key list by field lookup
(the padding step of `alignRow` is the identity on such a row over its own
columns). -/
theorem lookupField_reconstruct (fs : List (String × JVal))
    (hnd : (fs.map Prod.fst).Nodup) :
    (fs.map Prod.fst).map (fun k => (k, (lookupField fs k).getD JVal.null)) = fs := by
  induction fs with
  | nil => rfl
  | cons p fs ih =>
    obtain ⟨k0, v0⟩ := p
    simp only [List.map_cons, List.nodup_cons] at hnd
    simp only [List.map_cons]
    rw [lookupField_cons_self k0 v0 fs hnd.1]
    have hfun : ∀ k ∈ fs.map Prod.fst,
        (k, (lookupField ((k0, v0) :: fs) k).getD JVal.null)
          = (k, (lookupField fs k).getD JVal.null) := by
      intro k hk
      rw [lookupField_cons_ne k0 v0 fs k (fun he => hnd.1 (he ▸ hk))]
    rw [List.map_congr_left hfun, ih hnd.2]
    rfl

theorem columnsOf_foldl_fixed (tail : List JVal) (ks : List String)
    (hrows : ∀ r ∈ tail, ∃ fs, r = JVal.obj fs ∧ fs.map Prod.fst = ks) :
    tail.foldl (fun acc r => acc ++ (rowKeys r).filter (fun k => !(acc.contains k))) ks
      = ks := by
  induction tail with
  | nil => rfl
  | cons r tail ih =>
    obtain ⟨fs, hr, hfk⟩ := hrows r (List.mem_cons_self _ _)
    subst hr
    rw [List.foldl_cons]
    have hstep : ks ++ (rowKeys (JVal.obj fs)).filter (fun k => !(ks.contains k)) = ks := by
      have hnil : (rowKeys (JVal.obj fs)).filter (fun k => !(ks.contains k)) = [] := by
        refine List.filter_eq_nil_iff.mpr ?_
        intro k hk
        have hmem : k ∈ ks := by
          rw [rowKeys] at hk
          exact hfk ▸ hk
        have hc : ks.contains k = true := by
          simp only [List.contains]
          exact List.elem_eq_true_of_mem hmem
        intro hcontra
        rw [hc] at hcontra
        exact absurd hcontra (by decide)
      rw [hnil, List.append_nil]
    rw [hstep]
    exact ih (fun r hr => hrows r (List.mem_cons_of_mem _ hr))

/-- The columns of a table whose rows all carry the same key sequence are
exactly that key sequence. -/
theorem columnsOf_uniform (r0 : JVal) (tail : List JVal) (ks : List String)
    (hrows : ∀ r ∈ r0 :: tail, ∃ fs, r = JVal.obj fs ∧ fs.map Prod.fst = ks) :
    columnsOf (r0 :: tail) = ks := by
  obtain ⟨fs0, hr0, hfk0⟩ := hrows r0 (List.mem_cons_self _ _)
  subst hr0
  unfold columnsOf
  rw [List.foldl_cons]
  have hfirst : ([] : List String)
      ++ (rowKeys (JVal.obj fs0)).filter (fun k => !(([] : List String).contains k)) = ks := by
    rw [List.nil_append]
    have hself : (rowKeys (JVal.obj fs0)).filter (fun k => !(([] : List String).contains k))
        = rowKeys (JVal.obj fs0) := by
      refine List.filter_eq_self.mpr ?_
      intro k _
      rfl
    rw [hself, rowKeys, hfk0]
  rw [hfirst]
  exact columnsOf_foldl_fixed tail ks (fun r hr => hrows r (List.mem_cons_of_mem _ hr))

/-- C7 counterexample: the heterogeneous batch of the column-level validation
(storable: its first conjunct shows `store_result` accepts it) does not
round-trip — `to_json` pads every record to the full column set, so
re-parsing the export yields rows with extra `null` fields, not the original
table. -/
theorem c7_roundtrip_counterexample :
    store_result (JVal.obj [("records", JVal.arr
        [JVal.obj [("ai_severity_score", JVal.int 5)], JVal.obj [("x", JVal.int 1)]])]) =
      some ([JVal.obj [("ai_severity_score", JVal.int 5)], JVal.obj [("x", JVal.int 1)]],
        JVal.obj []) ∧
    parse_response (JVal.str (to_json_records
        [JVal.obj [("ai_severity_score", JVal.int 5)], JVal.obj [("x", JVal.int 1)]])) =
      some ([JVal.obj [("ai_severity_score", JVal.int 5), ("x", JVal.null)],
             JVal.obj [("ai_severity_score", JVal.null), ("x", JVal.int 1)]], JVal.obj []) ∧
    ([JVal.obj [("ai_severity_score", JVal.int 5), ("x", JVal.null)],
      JVal.obj [("ai_severity_score", JVal.null), ("x", JVal.int 1)]]
        ≠ [JVal.obj [("ai_severity_score", JVal.int 5)], JVal.obj [("x", JVal.int 1)]]) := by
  refine ⟨rfl, ?_, by simp⟩
  rw [show to_json_records [JVal.obj [("ai_severity_score", JVal.int 5)],
        JVal.obj [("x", JVal.int 1)]]
      = dumps (JVal.arr [JVal.obj [("ai_severity_score", JVal.int 5), ("x", JVal.null)],
          JVal.obj [("ai_severity_score", JVal.null), ("x", JVal.int 1)]]) from by
    unfold to_json_records
    rw [show [JVal.obj [("ai_severity_score", JVal.int 5)],
        JVal.obj [("x", JVal.int 1)]].map (alignRow (columnsOf
          [JVal.obj [("ai_severity_score", JVal.int 5)], JVal.obj [("x", JVal.int 1)]]))
        = [JVal.obj [("ai_severity_score", JVal.int 5), ("x", JVal.null)],
           JVal.obj [("ai_severity_score", JVal.null), ("x", JVal.int 1)]] from rfl]]
  rw [parse_response_str_of_loads _ _ (loads_dumps (JVal.arr
    [JVal.obj [("ai_severity_score", JVal.int 5), ("x", JVal.null)],
     JVal.obj [("ai_severity_score", JVal.null), ("x", JVal.int 1)]]))]
  rfl

/-- C7 (amended): exporting a table whose rows all carry the same keys in the
same order — the uniform shape the webhook contract's records have — to the
JSON export format and re-parsing the text via the normalizer yields a table
equal in content and row order to the original, with empty metadata.  For a
heterogeneous stored table the export pads each row to the DataFrame's full
column set with nulls (pandas additionally upcasts int columns containing
NaN to float), so the round trip returns the padded table instead. -/
theorem c7_roundtrip_uniform (rows : List JVal) (ks : List String)
    (hks : ks.Nodup)
    (hrows : ∀ r ∈ rows, ∃ fs, r = JVal.obj fs ∧ fs.map Prod.fst = ks) :
    parse_response (JVal.str (to_json_records rows)) = some (rows, JVal.obj []) := by
  have hmap : rows.map (alignRow (columnsOf rows)) = rows := by
    cases rows with
    | nil => rfl
    | cons r0 tail =>
      rw [columnsOf_uniform r0 tail ks hrows]
      have halign : ∀ r ∈ r0 :: tail, alignRow ks r = r := by
        intro r hr
        obtain ⟨fs, hrfs, hfk⟩ := hrows r hr
        subst hrfs
        unfold alignRow
        rw [← hfk]
        exact congrArg JVal.obj (lookupField_reconstruct fs (hfk ▸ hks))
      rw [List.map_congr_left halign, List.map_id']
  rw [show to_json_records rows = dumps (JVal.arr rows) from by
    unfold to_json_records
    rw [hmap]]
  rw [parse_response_str_of_loads _ _ (loads_dumps (JVal.arr rows))]
  rfl

/-- Witness for the amended C7 at a concrete uniform two-row table. -/
theorem c7_roundtrip_uniform_witness :
    (["ai_severity_score"] : List String).Nodup ∧
    (∀ r ∈ [JVal.obj [("ai_severity_score", JVal.int 4)],
        JVal.obj [("ai_severity_score", JVal.int 2)]],
      ∃ fs, r = JVal.obj fs ∧ fs.map Prod.fst = ["ai_severity_score"]) ∧
    parse_response (JVal.str (to_json_records
        [JVal.obj [("ai_severity_score", JVal.int 4)],
         JVal.obj [("ai_severity_score", JVal.int 2)]])) =
      some ([JVal.obj [("ai_severity_score", JVal.int 4)],
             JVal.obj [("ai_severity_score", JVal.int 2)]], JVal.obj []) := by
  have hrows : ∀ r ∈ [JVal.obj [("ai_severity_score", JVal.int 4)],
      JVal.obj [("ai_severity_score", JVal.int 2)]],
      ∃ fs, r = JVal.obj fs ∧ fs.map Prod.fst = ["ai_severity_score"] := by
    intro r hr
    rcases List.mem_cons.mp hr with hre | hr2
    · exact ⟨_, hre, rfl⟩
    · rcases List.mem_cons.mp hr2 with hre | hn
      · exact ⟨_, hre, rfl⟩
      · exact absurd hn (List.not_mem_nil _)
  exact ⟨by simp, hrows, c7_roundtrip_uniform _ _ (by simp) hrows⟩
